import Mathlib

/-!
Verification of the polyhedron facet-topology and geometry engine of the
`coxeter` repository (`euclid/shape_classes/polyhedron.py`).

The embedding below translates the Python source into Lean definitions:

* machine floats become exact real numbers (`ℝ`);
* `numpy` arrays become `List`s; out-of-range indexing, which would raise
  `IndexError` in `numpy`, is modelled with `List.getD` defaults and is
  documented at each site;
* methods that raise become `Option`/`Except`-valued functions;
* the `Polygon` collaborator class (`polygon.py`) is not part of the source
  tree; the pieces of it that the polyhedron engine uses are modelled from
  the specification, and each such definition is marked
  `Modelled from the spec:` in its doc comment.
-/

namespace Coxeter

/-- Three-dimensional vector over `ℝ`, the model of a row of a `numpy`
`(N, 3)` float array. -/
structure Vec3 where
  x : ℝ
  y : ℝ
  z : ℝ

instance : Zero Vec3 := ⟨⟨0, 0, 0⟩⟩

instance : Add Vec3 := ⟨fun a b => ⟨a.x + b.x, a.y + b.y, a.z + b.z⟩⟩

instance : Sub Vec3 := ⟨fun a b => ⟨a.x - b.x, a.y - b.y, a.z - b.z⟩⟩

instance : Neg Vec3 := ⟨fun a => ⟨-a.x, -a.y, -a.z⟩⟩

instance : SMul ℝ Vec3 := ⟨fun c v => ⟨c * v.x, c * v.y, c * v.z⟩⟩

theorem Vec3.zero_def : (0 : Vec3) = ⟨0, 0, 0⟩ := rfl

@[simp] theorem Vec3.x_zero : (0 : Vec3).x = 0 := rfl

@[simp] theorem Vec3.y_zero : (0 : Vec3).y = 0 := rfl

@[simp] theorem Vec3.z_zero : (0 : Vec3).z = 0 := rfl

theorem Vec3.add_def (a b : Vec3) : a + b = ⟨a.x + b.x, a.y + b.y, a.z + b.z⟩ := rfl

theorem Vec3.sub_def (a b : Vec3) : a - b = ⟨a.x - b.x, a.y - b.y, a.z - b.z⟩ := rfl

theorem Vec3.neg_def (a : Vec3) : -a = ⟨-a.x, -a.y, -a.z⟩ := rfl

theorem Vec3.smul_def (c : ℝ) (v : Vec3) : c • v = ⟨c * v.x, c * v.y, c * v.z⟩ := rfl

/-- Dot product, the model of `numpy.dot` on 3-vectors. -/
def dot3 (a b : Vec3) : ℝ := a.x * b.x + a.y * b.y + a.z * b.z

/-- Cross product, the model of `numpy.cross` on 3-vectors. -/
def cross3 (a b : Vec3) : Vec3 :=
  ⟨a.y * b.z - a.z * b.y, a.z * b.x - a.x * b.z, a.x * b.y - a.y * b.x⟩

/-- Euclidean norm, the model of `numpy.linalg.norm` on a 3-vector. -/
noncomputable def norm3 (v : Vec3) : ℝ := Real.sqrt (dot3 v v)

/-- Normalisation `v / norm(v)` as in `_find_equations`.  For `v = 0` the
source would produce `nan` entries; here real division by zero yields the
zero vector, a junk value that no claim depends on. -/
noncomputable def unitVec (v : Vec3) : Vec3 := (1 / norm3 v) • v

/-- State of a `Polyhedron` object: the four arrays the Python class stores
(`_vertices`, `_facets`, `_equations` split into unit normal and offset,
and `_neighbors`). -/
structure Polyhedron where
  vertices : List Vec3
  facets : List (List ℕ)
  equations : List (Vec3 × ℝ)
  neighbors : List (List ℕ)

/-- Model of `numpy.roll(l, -1)`: shift every entry one slot towards the
front, wrapping the head around to the back. -/
def rollDown {α : Type} (l : List α) : List α := l.drop 1 ++ l.take 1

/-- Model of `numpy.roll(l, 1)`: shift every entry one slot towards the
back, wrapping the last entry around to the front. -/
def rollUp {α : Type} (l : List α) : List α :=
  l.drop (l.length - 1) ++ l.take (l.length - 1)

/-- Model of `_facet_to_edges`: the cyclic edge list of a facet,
`zip(facet, roll(facet, -1))`, or with `roll(facet, 1)` when `reverse`. -/
def facetToEdges (facet : List ℕ) (reverse : Bool) : List (ℕ × ℕ) :=
  if reverse then facet.zip (rollUp facet) else facet.zip (rollDown facet)

/-- Safe vertex-array indexing.  `numpy` would raise `IndexError` out of
range; the default `0` vector is junk that well-formed inputs never hit. -/
def vget (vs : List Vec3) (i : ℕ) : Vec3 := vs.getD i 0

/-- Model of `Polyhedron._find_equations`: for each facet, the unit normal
`cross(v[f[2]] - v[f[1]], v[f[0]] - v[f[1]])` normalised, paired with the
signed offset `normal . v[f[0]]`.  Facets shorter than 3 entries, which
would raise `IndexError` in the source, read the junk index `0`. -/
noncomputable def findEquations (vs : List Vec3) (facets : List (List ℕ)) :
    List (Vec3 × ℝ) :=
  facets.map (fun f =>
    let n := unitVec (cross3 (vget vs (f.getD 2 0) - vget vs (f.getD 1 0))
      (vget vs (f.getD 0 0) - vget vs (f.getD 1 0)))
    (n, dot3 n (vget vs (f.getD 0 0))))

/-- Both directions of a facet's cyclic edge list, as in
`_find_neighbors`' `set(_facet_to_edges(f) + _facet_to_edges(f, True))`. -/
def edgesBoth (f : List ℕ) : List (ℕ × ℕ) := facetToEdges f false ++ facetToEdges f true

/-- Whether two facets share an edge: their two-directional edge sets
intersect (`len(facet_edges[i].intersection(facet_edges[j])) > 0`). -/
def sharesEdge (f g : List ℕ) : Bool :=
  (edgesBoth f).any (fun e => (edgesBoth g).contains e)

/-- Model of `Polyhedron._find_neighbors`.  The source's double loop over
`i < j` appends `j` to `neighbors[i]` and `i` to `neighbors[j]` whenever the
edge sets intersect; the list it builds for row `i` is exactly the
ascending list of all `j ≠ i` sharing an edge with `i`, which is what this
definition produces. -/
def findNeighbors (facets : List (List ℕ)) : List (List ℕ) :=
  (List.range facets.length).map (fun i =>
    (List.range facets.length).filter (fun j =>
      decide (j ≠ i) && sharesEdge (facets.getD i []) (facets.getD j [])))

/-- Modelled from the spec (`polygon.py` is not in the source tree), §4.1:
the mean of the vertex positions, the polygon's centroid. -/
noncomputable def centroid (pts : List Vec3) : Vec3 :=
  (1 / (pts.length : ℝ)) • pts.sum

/-- Modelled from the spec, §4.1: the vector shoelace sum
`Σ_i v_i × v_{i+1}` over the cyclic vertex loop.  The spec's `signed_area`
is this sum projected onto the polygon's unit normal; for the coplanar
loops the `Polygon` constructor accepts, the absolute value of that
projection equals the norm of this vector, which is the form used by
`polygonArea` below. -/
def shoelace (pts : List Vec3) : Vec3 :=
  ((pts.zip (rollDown pts)).map (fun e => cross3 e.1 e.2)).sum

/-- Modelled from the spec, §4.1: `area` is the absolute value of the
signed shoelace area.  Expressed as `‖Σ_i v_i × v_{i+1}‖ / 2`, which for
planar vertex loops coincides with `|signed_area|` regardless of the
winding direction or of the sign convention of the polygon's normal. -/
noncomputable def polygonArea (pts : List Vec3) : ℝ := norm3 (shoelace pts) / 2

/-- Modelled from the spec, §4.1: membership of the angular half-plane
`[0, π)` measured counterclockwise (about normal `n`) from the reference
direction `r`.  `dot3 n (cross3 r u)` is the sine and `dot3 r u` the
cosine of the angle of `u`, each scaled by a positive factor. -/
def inUpperHalf (n r u : Vec3) : Prop :=
  0 < dot3 n (cross3 r u) ∨ (dot3 n (cross3 r u) = 0 ∧ 0 < dot3 r u)

/-- Modelled from the spec, §4.1: the strict "smaller angle about the
centroid" comparison used to reorder polygon vertices.  `u` precedes `w`
when `u` lies in the `[0, π)` half and `w` does not, or when both lie in
the same half and the cross product `u × w` points along `n`.  This is the
standard algebraic form of comparing `atan2` angles taken in `[0, 2π)`
from the reference direction `r`. -/
def angLess (n r u w : Vec3) : Prop :=
  (inUpperHalf n r u ∧ ¬inUpperHalf n r w) ∨
    ((inUpperHalf n r u ↔ inUpperHalf n r w) ∧ 0 < dot3 n (cross3 u w))

open Classical in
/-- Modelled from the spec, §4.1 and §4.2 step 1: the `Polygon`
constructor reorders its vertices by angle about the centroid in the
plane.  The normal is computed from the cross product of the two edge
vectors at the first vertex (spec §4.1), the reference direction for the
angle is the first vertex itself (so ties and the zero angle keep the
original first vertex first, the spec's tie-breaking rule), and the sort
is stable. -/
noncomputable def polygonVertices (pts : List Vec3) : List Vec3 :=
  match pts with
  | [] => []
  | p0 :: rest =>
    let c := centroid (p0 :: rest)
    let n := cross3 ((p0 :: rest).getD 1 0 - p0)
      ((p0 :: rest).getD ((p0 :: rest).length - 1) 0 - p0)
    List.insertionSort (fun u w => angLess n (p0 - c) (u - c) (w - c)) (p0 :: rest)

open Classical in
/-- Model of the vertex lookup
`np.where(np.all(self.vertices == vertex, axis=1))[0][0]` in
`sort_facets`: the index of the first vertex equal to `pt`.  When no
vertex matches, `numpy` would raise `IndexError`; here the junk value
`vs.length` is returned, which valid inputs (whose facet vertices all
occur in the vertex array) never produce. -/
noncomputable def vertexIndex (vs : List Vec3) (pt : Vec3) : ℕ :=
  match vs with
  | [] => 0
  | v :: rest => if v = pt then 0 else vertexIndex rest pt + 1

/-- Step 1 of `sort_facets`: rebuild one facet by reordering its vertex
positions through the `Polygon` constructor and mapping each reordered
position back to its global vertex index. -/
noncomputable def reorderFacet (vs : List Vec3) (facet : List ℕ) : List ℕ :=
  (polygonVertices (facet.map (vget vs))).map (vertexIndex vs)

/-- Step 1 of `sort_facets` applied to every facet. -/
noncomputable def reorderAll (p : Polyhedron) : Polyhedron :=
  { p with facets := p.facets.map (reorderFacet p.vertices) }

/-- Step 2 of `sort_facets`: store the freshly computed neighbor lists. -/
noncomputable def withNeighbors (p : Polyhedron) : Polyhedron :=
  { p with neighbors := findNeighbors p.facets }

/-- The inner `for edge in _facet_to_edges(self.facets[neighbor])` loop of
`sort_facets`: walk the neighbor's edges in order; at the first edge that
occurs in the current facet's edge list in the same direction, flip
(return `true`); at the first edge whose reverse occurs there, keep
(return `false`). -/
def flipNeighborQ (curEdges : List (ℕ × ℕ)) : List (ℕ × ℕ) → Bool
  | [] => false
  | e :: rest =>
    if curEdges.contains e then true
    else if curEdges.contains (e.2, e.1) then false
    else flipNeighborQ curEdges rest

/-- The `for neighbor in self._neighbors[current_facet]` body of
`sort_facets`: each not-yet-visited neighbor is pushed on the remaining
stack, flipped in place if its shared edge runs in the same direction as
in the current facet, and marked visited. -/
def visitNeighbors (curEdges : List (ℕ × ℕ)) (nbrs : List ℕ)
    (facets : List (List ℕ)) (visited stack : List ℕ) :
    List (List ℕ) × List ℕ × List ℕ :=
  nbrs.foldl (fun st j =>
    let fs := st.1
    let vis := st.2.1
    let stk := st.2.2
    if vis.contains j then (fs, vis, stk)
    else
      let fj := fs.getD j []
      let fs' := if flipNeighborQ curEdges (facetToEdges fj false)
        then fs.set j fj.reverse else fs
      (fs', vis ++ [j], j :: stk))
    (facets, visited, stack)

/-- The `while len(remaining_facets)` loop of `sort_facets` (step 3, the
orientation traversal).  The stack is kept head-on-top, matching the
source's `remaining_facets[-1]` / `pop()` discipline.  Fuel bounds the
iteration count: every iteration pops one entry, facet `0` is pushed once
at the start, and every other push immediately marks its facet visited and
visited facets are never pushed again, so at most `facets.length + 1`
iterations ever run and the fuel `facets.length + 1` used by `sortFacets`
is never exhausted. -/
def orientLoop (neighbors : List (List ℕ)) :
    ℕ → List (List ℕ) → List ℕ → List ℕ → List (List ℕ)
  | 0, facets, _, _ => facets
  | _ + 1, facets, _, [] => facets
  | fuel + 1, facets, visited, current :: stk =>
    let visited' := visited ++ [current]
    let curEdges := facetToEdges (facets.getD current []) false
    let st := visitNeighbors curEdges (neighbors.getD current []) facets visited' stk
    orientLoop neighbors fuel st.1 st.2.1 st.2.2

/-- Step 3 of `sort_facets` as a state transformer: run the orientation
traversal from facet `0`. -/
noncomputable def orientPhase (p : Polyhedron) : Polyhedron :=
  { p with facets := orientLoop p.neighbors (p.facets.length + 1) p.facets [] [0] }

/-- Per-facet areas, the model of `get_facet_area()` with the default
`facets=None`: each facet's vertex positions are handed to the `Polygon`
collaborator and its `area` is read back. -/
noncomputable def facetAreas (p : Polyhedron) : List ℝ :=
  p.facets.map (fun f => polygonArea (f.map (vget p.vertices)))

/-- Model of the `volume` property: `np.sum(ds * self.get_facet_area()) / 3`
where `ds` is the offset column of the stored plane equations. -/
noncomputable def volume (p : Polyhedron) : ℝ :=
  (List.zipWith (fun d a => d * a) (p.equations.map Prod.snd) (facetAreas p)).sum / 3

/-- Negation of a stored plane equation row, `self._equations[i] *= -1`. -/
def negEq (e : Vec3 × ℝ) : Vec3 × ℝ := (-e.1, -e.2)

open Classical in
/-- Step 4 of `sort_facets`: recompute the plane equations, and if the
resulting signed volume is negative, reverse every facet and negate every
plane equation. -/
noncomputable def signFix (p : Polyhedron) : Polyhedron :=
  let q := { p with equations := findEquations p.vertices p.facets }
  if volume q < 0 then
    { q with facets := q.facets.map List.reverse, equations := q.equations.map negEq }
  else q

/-- Model of `Polyhedron.sort_facets`: reorder each facet through the
`Polygon` collaborator, find neighbors, run the orientation traversal from
facet `0`, then fix the global sign.  The source raises no exception in
any of these steps. -/
noncomputable def sortFacets (p : Polyhedron) : Polyhedron :=
  signFix (orientPhase (withNeighbors (reorderAll p)))

/-- Model of the construction `Polyhedron(vertices, facets)`: store the
arrays and run `sort_facets`. -/
noncomputable def mkPolyhedron (vs : List Vec3) (facets : List (List ℕ)) : Polyhedron :=
  sortFacets { vertices := vs, facets := facets, equations := [], neighbors := [] }

/-- Model of `Polyhedron.get_dihedral(a, b)`: `None` models the
`ValueError` ("The two facets are not neighbors.") raised when `b` is not
a stored neighbor of `a`; otherwise the angle `arccos(dot(-n1, n2))` of
the two stored unit normals. -/
noncomputable def getDihedral (p : Polyhedron) (a b : ℕ) : Option ℝ :=
  if (p.neighbors.getD a []).contains b then
    some (Real.arccos (dot3 (-(p.equations.getD a (0, 0)).1) (p.equations.getD b (0, 0)).1))
  else none

/-- The dihedral-angle value `arccos(dot(-n_a, n_b))` read off the stored
equations, the quantity `get_dihedral` returns on the success path. -/
noncomputable def dihedralVal (p : Polyhedron) (a b : ℕ) : ℝ :=
  Real.arccos (dot3 (-(p.equations.getD a (0, 0)).1) (p.equations.getD b (0, 0)).1)

/-- The shared edge of facets `i` and `j` that `mean_curvature` extracts:
the first edge of facet `i` (forward direction only) lying in facet `j`'s
two-directional edge set, modelling
`list(f1.intersection(f2))[0]` (the source asserts the intersection has
exactly one element). -/
def sharedEdge (fi fj : List ℕ) : ℕ × ℕ :=
  ((facetToEdges fi false).find? (fun e => (edgesBoth fj).contains e)).getD (0, 0)

/-- Model of `ConvexPolyhedron.mean_curvature`: over every stored neighbor
pair `i < j` (the `if j < i: continue` filter), accumulate
`edge_length * (π - dihedral)` for the shared edge, then divide by `8π`. -/
noncomputable def meanCurvature (p : Polyhedron) : ℝ :=
  (((List.range p.facets.length).map (fun i =>
    (((p.neighbors.getD i []).filter (fun j => i ≤ j)).map (fun j =>
      let e := sharedEdge (p.facets.getD i []) (p.facets.getD j [])
      norm3 (vget p.vertices e.1 - vget p.vertices e.2) *
        (Real.pi - dihedralVal p i j))).sum)).sum) / (8 * Real.pi)

/-- Error channel for the parameter setters.  The specification claims the
volume setter fails with `InvalidParameterError` on non-positive current
or requested volumes; no such class exists in the source and the setter
contains no check, so `setVolume` below never returns this value. -/
inductive ParamError where
  | invalidParameter : ParamError

/-- Model of the `volume` setter: scale the vertices and the offset column
of the plane equations by `(new_volume / volume) ** (1/3)` (real `rpow`;
for a negative ratio the `numpy` power yields `nan`, another junk value).
The source performs no validation, so the result is always `Except.ok`. -/
noncomputable def setVolume (p : Polyhedron) (newVolume : ℝ) :
    Except ParamError Polyhedron :=
  let s := (newVolume / volume p) ^ ((1 : ℝ) / 3)
  Except.ok
    { p with
      vertices := p.vertices.map (fun v => s • v),
      equations := p.equations.map (fun e => (e.1, e.2 * s)) }

/-- Model of the `center` property: the mean of the vertex positions. -/
noncomputable def center (p : Polyhedron) : Vec3 :=
  (1 / (p.vertices.length : ℝ)) • p.vertices.sum

/-- Model of the `center` setter: translate every vertex by
`value - center` and recompute the plane equations. -/
noncomputable def setCenter (p : Polyhedron) (value : Vec3) : Polyhedron :=
  let d := value - center p
  let vs := p.vertices.map (fun v => v + d)
  { p with vertices := vs, equations := findEquations vs p.facets }

/-- The state invariants established by `sort_facets` that the claims
about canonicalized polyhedra rely on: the stored neighbor lists and
plane equations agree with the stored vertices and facets, and the signed
volume is non-negative. -/
def Canonical (p : Polyhedron) : Prop :=
  p.neighbors = findNeighbors p.facets ∧
    p.equations = findEquations p.vertices p.facets ∧ 0 ≤ volume p

theorem Vec3.ext3 (a b : Vec3) (hx : a.x = b.x) (hy : a.y = b.y) (hz : a.z = b.z) :
    a = b := by
  cases a
  cases b
  simp_all

instance : AddCommGroup Vec3 where
  add_assoc a b c := by
    apply Vec3.ext3 <;> simp [Vec3.add_def] <;> ring
  zero_add a := by
    apply Vec3.ext3 <;> simp [Vec3.add_def]
  add_zero a := by
    apply Vec3.ext3 <;> simp [Vec3.add_def]
  add_comm a b := by
    apply Vec3.ext3 <;> simp [Vec3.add_def] <;> ring
  neg_add_cancel a := by
    apply Vec3.ext3 <;> simp [Vec3.add_def, Vec3.neg_def]
  sub_eq_add_neg a b := by
    apply Vec3.ext3 <;> simp [Vec3.add_def, Vec3.neg_def, Vec3.sub_def] <;> ring
  nsmul := nsmulRec
  zsmul := zsmulRec

instance : Module ℝ Vec3 where
  smul_add c a b := by
    apply Vec3.ext3 <;> simp [Vec3.add_def, Vec3.smul_def] <;> ring
  add_smul c d a := by
    apply Vec3.ext3 <;> simp [Vec3.add_def, Vec3.smul_def] <;> ring
  mul_smul c d a := by
    apply Vec3.ext3 <;> simp [Vec3.smul_def] <;> ring
  one_smul a := by
    apply Vec3.ext3 <;> simp [Vec3.smul_def]
  zero_smul a := by
    apply Vec3.ext3 <;> simp [Vec3.smul_def]
  smul_zero c := by
    apply Vec3.ext3 <;> simp [Vec3.smul_def]

theorem cross3_self (a : Vec3) : cross3 a a = 0 := by
  apply Vec3.ext3 <;> simp [cross3] <;> ring

theorem cross3_antisymm (a b : Vec3) : cross3 b a = -cross3 a b := by
  apply Vec3.ext3 <;> simp [cross3, Vec3.neg_def] <;> ring

theorem cross3_smul_smul (c d : ℝ) (a b : Vec3) :
    cross3 (c • a) (d • b) = (c * d) • cross3 a b := by
  apply Vec3.ext3 <;> simp [cross3, Vec3.smul_def] <;> ring

theorem dot3_neg_left (a b : Vec3) : dot3 (-a) b = -dot3 a b := by
  simp only [dot3, Vec3.neg_def]
  ring

theorem norm3_eq (v : Vec3) (r : ℝ) (h0 : 0 ≤ r) (h : dot3 v v = r * r) :
    norm3 v = r := by
  rw [norm3, h, Real.sqrt_mul_self h0]

theorem norm3_nonneg (v : Vec3) : 0 ≤ norm3 v := Real.sqrt_nonneg _

theorem norm3_neg (v : Vec3) : norm3 (-v) = norm3 v := by
  have h : dot3 (-v) (-v) = dot3 v v := by
    simp only [dot3, Vec3.neg_def]
    ring
  rw [norm3, h, norm3]

theorem norm3_smul (c : ℝ) (v : Vec3) : norm3 (c • v) = |c| * norm3 v := by
  have h : dot3 (c • v) (c • v) = c ^ 2 * dot3 v v := by
    simp [dot3, Vec3.smul_def]
    ring
  rw [norm3, h, Real.sqrt_mul (sq_nonneg c), Real.sqrt_sq_eq_abs, norm3]

/-- Sum of the cross products of consecutive (non-cyclic) pairs. -/
def consecSum : List Vec3 → Vec3
  | [] => 0
  | [_] => 0
  | a :: b :: t => cross3 a b + consecSum (b :: t)

theorem consecSum_append_single (xs : List Vec3) (a : Vec3) :
    consecSum (xs ++ [a]) = consecSum xs + cross3 (xs.getLastD a) a := by
  induction xs with
  | nil => simp [consecSum, cross3_self]
  | cons x xs ih =>
    cases xs with
    | nil => simp [consecSum, cross3_self]
    | cons y ys =>
      have h1 : consecSum (x :: ((y :: ys) ++ [a])) =
          cross3 x y + consecSum ((y :: ys) ++ [a]) := rfl
      rw [List.cons_append, h1, ih]
      have h2 : consecSum (x :: y :: ys) = cross3 x y + consecSum (y :: ys) := rfl
      have h3 : (x :: y :: ys).getLastD a = ys.getLastD y := by
        rw [List.getLastD_cons, List.getLastD_cons]
      have h4 : (y :: ys).getLastD a = ys.getLastD y := by
        rw [List.getLastD_cons]
      rw [h2, h3, h4, add_assoc]

theorem consecSum_reverse (l : List Vec3) : consecSum l.reverse = -consecSum l := by
  induction l with
  | nil => simp [consecSum]
  | cons x xs ih =>
    cases xs with
    | nil => simp [consecSum]
    | cons y ys =>
      rw [List.reverse_cons, consecSum_append_single, ih]
      have hlast : ((y :: ys).reverse).getLastD x = y := by
        rw [List.getLastD_eq_getLast?, List.getLast?_reverse]
        simp
      rw [hlast]
      simp only [consecSum, cross3_antisymm y x]
      abel

/-- The shoelace vector decomposes into the consecutive-pair sum plus the
closing edge from the last vertex back to the first. -/
theorem shoelace_eq_consec (l : List Vec3) :
    shoelace l = consecSum l + cross3 (l.getLastD 0) (l.headD 0) := by
  cases l with
  | nil => simp [shoelace, consecSum, cross3_self]
  | cons p t =>
    have key : ∀ (h : Vec3) (x : Vec3) (xs : List Vec3),
        (((x :: xs).zip (xs ++ [h])).map (fun e => cross3 e.1 e.2)).sum =
          consecSum (x :: xs) + cross3 ((x :: xs).getLastD 0) h := by
      intro h x xs
      induction xs generalizing x with
      | nil => simp [consecSum]
      | cons y ys ih =>
        simp only [List.cons_append, List.zip_cons_cons, List.map_cons, List.sum_cons, ih y,
          consecSum, List.getLastD_cons]
        rw [add_assoc]
    have hroll : rollDown (p :: t) = t ++ [p] := by
      simp [rollDown]
    rw [shoelace, hroll, key p p t]
    simp

theorem shoelace_reverse (l : List Vec3) : shoelace l.reverse = -shoelace l := by
  cases l with
  | nil => simp [shoelace, rollDown]
  | cons p t =>
    rw [shoelace_eq_consec, shoelace_eq_consec, consecSum_reverse]
    have h1 : ((p :: t).reverse).getLastD 0 = p := by
      rw [List.getLastD_eq_getLast?, List.getLast?_reverse]
      simp
    have h2 : ((p :: t).reverse).headD 0 = (p :: t).getLastD 0 := by
      rw [List.headD_eq_head?, List.head?_reverse, List.getLastD_eq_getLast?]
    rw [h1, h2, cross3_antisymm ((p :: t).getLastD 0) p]
    have h3 : (p :: t).headD 0 = p := rfl
    rw [h3]
    abel

theorem polygonArea_reverse (pts : List Vec3) :
    polygonArea pts.reverse = polygonArea pts := by
  rw [polygonArea, polygonArea, shoelace_reverse, norm3_neg]

theorem rollDown_map {α β : Type} (f : α → β) (l : List α) :
    rollDown (l.map f) = (rollDown l).map f := by
  simp [rollDown, List.map_drop, List.map_take]

theorem shoelace_smul (c : ℝ) (l : List Vec3) :
    shoelace (l.map (fun v => c • v)) = (c * c) • shoelace l := by
  rw [shoelace, shoelace, rollDown_map, List.zip_map, List.map_map, List.smul_sum,
    List.map_map]
  apply congrArg List.sum
  apply List.map_congr_left
  intro e _
  simp [Function.comp, Prod.map, cross3_smul_smul]

theorem polygonArea_smul (c : ℝ) (pts : List Vec3) :
    polygonArea (pts.map (fun v => c • v)) = (c * c) * polygonArea pts := by
  rw [polygonArea, polygonArea, shoelace_smul, norm3_smul, abs_of_nonneg (mul_self_nonneg c)]
  ring

end Coxeter

namespace Coxeter

theorem zipWith_mul_neg_sum (ds as : List ℝ) :
    (List.zipWith (fun d a => d * a) (ds.map (fun d => -d)) as).sum =
      -(List.zipWith (fun d a => d * a) ds as).sum := by
  induction ds generalizing as with
  | nil => simp
  | cons d ds ih =>
    cases as with
    | nil => simp
    | cons a as =>
      simp only [List.map_cons, List.zipWith_cons_cons, List.sum_cons, ih]
      ring

theorem facetAreas_flip (vs : List Vec3) (fs : List (List ℕ))
    (eqs eqs' : List (Vec3 × ℝ)) (nb nb' : List (List ℕ)) :
    facetAreas ⟨vs, fs.map List.reverse, eqs, nb⟩ = facetAreas ⟨vs, fs, eqs', nb'⟩ := by
  simp only [facetAreas, List.map_map]
  apply List.map_congr_left
  intro f _
  simp only [Function.comp]
  rw [List.map_reverse, polygonArea_reverse]

theorem volume_flipAll (vs : List Vec3) (fs : List (List ℕ))
    (eqs : List (Vec3 × ℝ)) (nb : List (List ℕ)) :
    volume ⟨vs, fs.map List.reverse, eqs.map negEq, nb⟩ = -volume ⟨vs, fs, eqs, nb⟩ := by
  simp only [volume]
  rw [facetAreas_flip vs fs (eqs.map negEq) eqs nb nb]
  have h : (eqs.map negEq).map Prod.snd = (eqs.map Prod.snd).map (fun d => -d) := by
    simp [negEq, Function.comp]
  rw [h, zipWith_mul_neg_sum]
  ring

/-- Behaviour of the sign-fix step: if the freshly computed signed volume
is negative, every facet is reversed and every equation negated; in all
cases the resulting signed volume is non-negative. -/
theorem signFix_cases (p : Polyhedron) :
    (volume { p with equations := findEquations p.vertices p.facets } < 0 →
      signFix p =
        { p with
          facets := p.facets.map List.reverse,
          equations := (findEquations p.vertices p.facets).map negEq }) ∧
      0 ≤ volume (signFix p) := by
  constructor
  · intro h
    simp only [signFix]
    rw [if_pos h]
  · by_cases h : volume { p with equations := findEquations p.vertices p.facets } < 0
    · simp only [signFix]
      rw [if_pos h]
      have := volume_flipAll p.vertices p.facets (findEquations p.vertices p.facets) p.neighbors
      have h2 : volume ⟨p.vertices, p.facets.map List.reverse,
          (findEquations p.vertices p.facets).map negEq, p.neighbors⟩ =
          -volume { p with equations := findEquations p.vertices p.facets } := this
      calc (0 : ℝ) ≤ -volume { p with equations := findEquations p.vertices p.facets } := by
            linarith
        _ = _ := h2.symm
    · simp only [signFix]
      rw [if_neg h]
      linarith [not_lt.mp h]

theorem signFix_neighbors (p : Polyhedron) : (signFix p).neighbors = p.neighbors := by
  simp only [signFix]
  split <;> rfl

theorem signFix_vertices (p : Polyhedron) : (signFix p).vertices = p.vertices := by
  simp only [signFix]
  split <;> rfl

theorem sortFacets_neighbors (p : Polyhedron) :
    (sortFacets p).neighbors = findNeighbors (reorderAll p).facets := by
  rw [sortFacets, signFix_neighbors]
  rfl

theorem sortFacets_vertices (p : Polyhedron) : (sortFacets p).vertices = p.vertices := by
  rw [sortFacets, signFix_vertices]
  rfl

theorem getD_map_range {β : Type} (n : ℕ) (f : ℕ → β) (d : β) (i : ℕ) (h : i < n) :
    ((List.range n).map f).getD i d = f i := by
  rw [List.getD_eq_getElem?_getD, List.getElem?_map, List.getElem?_range h]
  rfl

theorem sharesEdge_iff (f g : List ℕ) :
    sharesEdge f g = true ↔ ∃ e, e ∈ edgesBoth f ∧ e ∈ edgesBoth g := by
  simp only [sharesEdge, List.any_eq_true, List.contains_iff_exists_mem_beq]
  constructor
  · rintro ⟨e, he, e', he', hb⟩
    rw [beq_iff_eq] at hb
    refine ⟨e, he, ?_⟩
    rw [hb]
    exact he'
  · rintro ⟨e, he, he'⟩
    exact ⟨e, he, e, he', beq_self_eq_true e⟩

theorem mem_findNeighbors (facets : List (List ℕ)) (i j : ℕ) (hi : i < facets.length) :
    j ∈ (findNeighbors facets).getD i [] ↔
      j < facets.length ∧ j ≠ i ∧
        sharesEdge (facets.getD i []) (facets.getD j []) = true := by
  rw [findNeighbors, getD_map_range _ _ _ _ hi]
  simp only [List.mem_filter, List.mem_range, Bool.and_eq_true, decide_eq_true_eq]

theorem findNeighbors_symm (facets : List (List ℕ)) (i j : ℕ)
    (hi : i < facets.length) (hj : j < facets.length) :
    j ∈ (findNeighbors facets).getD i [] ↔ i ∈ (findNeighbors facets).getD j [] := by
  rw [mem_findNeighbors facets i j hi, mem_findNeighbors facets j i hj]
  have hsym : sharesEdge (facets.getD i []) (facets.getD j []) = true ↔
      sharesEdge (facets.getD j []) (facets.getD i []) = true := by
    rw [sharesEdge_iff, sharesEdge_iff]
    constructor
    · rintro ⟨e, h1, h2⟩
      exact ⟨e, h2, h1⟩
    · rintro ⟨e, h1, h2⟩
      exact ⟨e, h2, h1⟩
  constructor
  · rintro ⟨_, hne, hs⟩
    exact ⟨hi, hne.symm, hsym.mp hs⟩
  · rintro ⟨_, hne, hs⟩
    exact ⟨hj, hne.symm, hsym.mpr hs⟩

theorem findNeighbors_irrefl (facets : List (List ℕ)) (i : ℕ) (hi : i < facets.length) :
    i ∉ (findNeighbors facets).getD i [] := by
  rw [mem_findNeighbors facets i i hi]
  rintro ⟨_, hne, _⟩
  exact hne rfl

theorem findEquations_length (vs : List Vec3) (facets : List (List ℕ)) :
    (findEquations vs facets).length = facets.length := by
  simp [findEquations]

theorem zipWith_mul_sum_eq (ds as : List ℝ) (h : ds.length = as.length) :
    (List.zipWith (fun d a => d * a) ds as).sum =
      ∑ i ∈ Finset.range ds.length, ds.getD i 0 * as.getD i 0 := by
  induction ds generalizing as with
  | nil => simp
  | cons d ds ih =>
    cases as with
    | nil => simp at h
    | cons a as =>
      simp only [List.zipWith_cons_cons, List.sum_cons, List.length_cons]
      rw [Finset.sum_range_succ']
      simp only [List.getD_cons_succ, List.getD_cons_zero]
      rw [ih as (by simpa using h)]
      ring

end Coxeter

namespace Coxeter

theorem dot3_add_right (a b c : Vec3) : dot3 a (b + c) = dot3 a b + dot3 a c := by
  simp only [dot3, Vec3.add_def]
  ring

theorem vget_map_smul (vs : List Vec3) (s : ℝ) (i : ℕ) :
    vget (vs.map (fun v => s • v)) i = s • vget vs i := by
  rw [vget, vget, List.getD_eq_getElem?_getD, List.getD_eq_getElem?_getD, List.getElem?_map]
  cases vs[i]? with
  | none => simp
  | some v => simp

theorem facetAreas_scale (p : Polyhedron) (s : ℝ) (eqs : List (Vec3 × ℝ)) :
    facetAreas { p with vertices := p.vertices.map (fun v => s • v), equations := eqs } =
      (facetAreas p).map (fun a => s * s * a) := by
  simp only [facetAreas, List.map_map]
  apply List.map_congr_left
  intro f _
  simp only [Function.comp]
  have h : f.map (vget (p.vertices.map (fun v => s • v))) =
      (f.map (vget p.vertices)).map (fun v => s • v) := by
    rw [List.map_map]
    apply List.map_congr_left
    intro k _
    simp only [Function.comp, vget_map_smul]
  rw [h, polygonArea_smul]

theorem zipWith_mul_scale (c d : ℝ) (ds as : List ℝ) :
    (List.zipWith (fun x a => x * a) (ds.map (fun x => x * c)) (as.map (fun a => d * a))).sum =
      c * d * (List.zipWith (fun x a => x * a) ds as).sum := by
  induction ds generalizing as with
  | nil => simp
  | cons x ds ih =>
    cases as with
    | nil => simp
    | cons a as =>
      simp only [List.map_cons, List.zipWith_cons_cons, List.sum_cons, ih]
      ring

theorem volume_scale (p : Polyhedron) (s : ℝ) :
    volume
      { p with
        vertices := p.vertices.map (fun v => s • v),
        equations := p.equations.map (fun e => (e.1, e.2 * s)) } =
      s * (s * s) * volume p := by
  simp only [volume]
  rw [facetAreas_scale]
  have h : (p.equations.map (fun e : Vec3 × ℝ => (e.1, e.2 * s))).map Prod.snd =
      (p.equations.map Prod.snd).map (fun x => x * s) := by
    simp [Function.comp]
  rw [h]
  have h2 := zipWith_mul_scale s (s * s) (p.equations.map Prod.snd) (facetAreas p)
  rw [h2]
  ring

theorem vget_map_add (vs : List Vec3) (d : Vec3) (i : ℕ) (h : i < vs.length) :
    vget (vs.map (fun v => v + d)) i = vget vs i + d := by
  rw [vget, vget, List.getD_eq_getElem?_getD, List.getD_eq_getElem?_getD, List.getElem?_map,
    List.getElem?_eq_getElem h]
  simp

theorem sub_add_cancel3 (a b d : Vec3) : (a + d) - (b + d) = a - b := by
  apply Vec3.ext3 <;> simp only [Vec3.add_def, Vec3.sub_def] <;> ring

theorem getD_map_of_lt {α β : Type} (f : α → β) (l : List α) (i : ℕ) (h : i < l.length)
    (d : β) (a : α) : (l.map f).getD i d = f (l.getD i a) := by
  rw [List.getD_eq_getElem?_getD, List.getD_eq_getElem?_getD, List.getElem?_map,
    List.getElem?_eq_getElem h]
  simp

theorem getD_mem_of_lt {α : Type} (l : List α) (i : ℕ) (d : α) (h : i < l.length) :
    l.getD i d ∈ l := by
  rw [List.getD_eq_getElem?_getD, List.getElem?_eq_getElem h]
  exact List.getElem_mem h

/-- Translating the vertices changes no facet normal and shifts each
offset by the dot product of the normal with the translation. -/
theorem findEquations_translate (vs : List Vec3) (d : Vec3) (facets : List (List ℕ))
    (hwf : ∀ f ∈ facets, 3 ≤ f.length ∧ ∀ k ∈ f, k < vs.length) (i : ℕ)
    (hi : i < facets.length) :
    ((findEquations (vs.map (fun v => v + d)) facets).getD i (0, 0)).1 =
        ((findEquations vs facets).getD i (0, 0)).1 ∧
      ((findEquations (vs.map (fun v => v + d)) facets).getD i (0, 0)).2 =
        ((findEquations vs facets).getD i (0, 0)).2 +
          dot3 ((findEquations vs facets).getD i (0, 0)).1 d := by
  have hf : facets.getD i [] ∈ facets := getD_mem_of_lt _ _ _ hi
  obtain ⟨hlen, hmem⟩ := hwf _ hf
  set f := facets.getD i [] with hfdef
  have h0 : f.getD 0 0 < vs.length := hmem _ (getD_mem_of_lt _ _ _ (by omega))
  have h1 : f.getD 1 0 < vs.length := hmem _ (getD_mem_of_lt _ _ _ (by omega))
  have h2 : f.getD 2 0 < vs.length := hmem _ (getD_mem_of_lt _ _ _ (by omega))
  rw [findEquations, findEquations, getD_map_of_lt _ _ _ hi _ [],
    getD_map_of_lt _ _ _ hi _ []]
  simp only [← hfdef]
  rw [vget_map_add _ _ _ h0, vget_map_add _ _ _ h1, vget_map_add _ _ _ h2,
    sub_add_cancel3, sub_add_cancel3]
  exact ⟨rfl, dot3_add_right _ _ _⟩

end Coxeter

namespace Coxeter

theorem unitVec_eval (v : Vec3) (r : ℝ) (h0 : 0 ≤ r) (h : dot3 v v = r * r) :
    unitVec v = (1 / r) • v := by
  rw [unitVec, norm3_eq v r h0 h]

theorem polygonArea_of_shoelace (pts : List Vec3) (w : Vec3) (r : ℝ) (hr : 0 ≤ r)
    (hs : shoelace pts = w) (hd : dot3 w w = 2 * r * (2 * r)) : polygonArea pts = r := by
  rw [polygonArea, hs, norm3_eq w (2 * r) (by linarith) hd]
  ring

/-- The cube with vertices at all sign combinations of `(±1, ±1, ±1)`, in
the vertex order of the repository's own doctest
(`coxeter/shape_classes/convex_polyhedron.py`). -/
noncomputable def cubeVertices : List Vec3 :=
  [⟨1, 1, 1⟩, ⟨1, -1, 1⟩, ⟨1, 1, -1⟩, ⟨1, -1, -1⟩,
    ⟨-1, 1, 1⟩, ⟨-1, -1, 1⟩, ⟨-1, 1, -1⟩, ⟨-1, -1, -1⟩]

/-- The six merged quadrilateral faces of the cube exactly as the library
produces them (doctest `cube.faces`). -/
def cubeFacets : List (List ℕ) :=
  [[4, 5, 1, 0], [0, 2, 6, 4], [6, 7, 5, 4], [0, 1, 3, 2], [5, 7, 3, 1], [2, 3, 7, 6]]

/-- The plane equations of the cube faces (doctest `cube.normals`, all
offsets 1). -/
noncomputable def cubeEquations : List (Vec3 × ℝ) :=
  [(⟨0, 0, 1⟩, 1), (⟨0, 1, 0⟩, 1), (⟨-1, 0, 0⟩, 1),
    (⟨1, 0, 0⟩, 1), (⟨0, -1, 0⟩, 1), (⟨0, 0, -1⟩, 1)]

/-- The neighbor lists of the cube faces (doctest `cube.neighbors`). -/
def cubeNeighbors : List (List ℕ) :=
  [[1, 2, 3, 4], [0, 2, 3, 5], [0, 1, 4, 5], [0, 1, 4, 5], [0, 2, 3, 5], [1, 2, 3, 4]]

/-- The canonicalized cube, the state the library reaches for
`ConvexPolyhedron` on the eight `(±1, ±1, ±1)` vertices. -/
noncomputable def cubeState : Polyhedron :=
  ⟨cubeVertices, cubeFacets, cubeEquations, cubeNeighbors⟩

theorem cube_neighbors_eval : findNeighbors cubeFacets = cubeNeighbors := by rfl

theorem cube_equations_eval : findEquations cubeVertices cubeFacets = cubeEquations := by
  have u1 : unitVec ⟨0, 0, 4⟩ = ⟨0, 0, 1⟩ := by
    rw [unitVec_eval ⟨0, 0, 4⟩ 4 (by norm_num) (by norm_num [dot3])]
    norm_num [Vec3.smul_def, Vec3.mk.injEq]
  have u2 : unitVec ⟨0, 4, 0⟩ = ⟨0, 1, 0⟩ := by
    rw [unitVec_eval ⟨0, 4, 0⟩ 4 (by norm_num) (by norm_num [dot3])]
    norm_num [Vec3.smul_def, Vec3.mk.injEq]
  have u3 : unitVec ⟨-4, 0, 0⟩ = ⟨-1, 0, 0⟩ := by
    rw [unitVec_eval ⟨-4, 0, 0⟩ 4 (by norm_num) (by norm_num [dot3])]
    norm_num [Vec3.smul_def, Vec3.mk.injEq]
  have u4 : unitVec ⟨4, 0, 0⟩ = ⟨1, 0, 0⟩ := by
    rw [unitVec_eval ⟨4, 0, 0⟩ 4 (by norm_num) (by norm_num [dot3])]
    norm_num [Vec3.smul_def, Vec3.mk.injEq]
  have u5 : unitVec ⟨0, -4, 0⟩ = ⟨0, -1, 0⟩ := by
    rw [unitVec_eval ⟨0, -4, 0⟩ 4 (by norm_num) (by norm_num [dot3])]
    norm_num [Vec3.smul_def, Vec3.mk.injEq]
  have u6 : unitVec ⟨0, 0, -4⟩ = ⟨0, 0, -1⟩ := by
    rw [unitVec_eval ⟨0, 0, -4⟩ 4 (by norm_num) (by norm_num [dot3])]
    norm_num [Vec3.smul_def, Vec3.mk.injEq]
  norm_num [findEquations, cubeVertices, cubeFacets, cubeEquations, vget, cross3,
    Vec3.sub_def, Vec3.mk.injEq, u1, u2, u3, u4, u5, u6, dot3]

theorem cube_areas_eval : facetAreas cubeState = [4, 4, 4, 4, 4, 4] := by
  have a0 : polygonArea [(⟨-1, 1, 1⟩ : Vec3), ⟨-1, -1, 1⟩, ⟨1, -1, 1⟩, ⟨1, 1, 1⟩] = 4 := by
    apply polygonArea_of_shoelace _ ⟨0, 0, 8⟩ 4 (by norm_num)
    · norm_num [shoelace, rollDown, cross3, Vec3.add_def, Vec3.zero_def, Vec3.mk.injEq]
    · norm_num [dot3]
  have a1 : polygonArea [(⟨1, 1, 1⟩ : Vec3), ⟨1, 1, -1⟩, ⟨-1, 1, -1⟩, ⟨-1, 1, 1⟩] = 4 := by
    apply polygonArea_of_shoelace _ ⟨0, 8, 0⟩ 4 (by norm_num)
    · norm_num [shoelace, rollDown, cross3, Vec3.add_def, Vec3.zero_def, Vec3.mk.injEq]
    · norm_num [dot3]
  have a2 : polygonArea [(⟨-1, 1, -1⟩ : Vec3), ⟨-1, -1, -1⟩, ⟨-1, -1, 1⟩, ⟨-1, 1, 1⟩] = 4 := by
    apply polygonArea_of_shoelace _ ⟨-8, 0, 0⟩ 4 (by norm_num)
    · norm_num [shoelace, rollDown, cross3, Vec3.add_def, Vec3.zero_def, Vec3.mk.injEq]
    · norm_num [dot3]
  have a3 : polygonArea [(⟨1, 1, 1⟩ : Vec3), ⟨1, -1, 1⟩, ⟨1, -1, -1⟩, ⟨1, 1, -1⟩] = 4 := by
    apply polygonArea_of_shoelace _ ⟨8, 0, 0⟩ 4 (by norm_num)
    · norm_num [shoelace, rollDown, cross3, Vec3.add_def, Vec3.zero_def, Vec3.mk.injEq]
    · norm_num [dot3]
  have a4 : polygonArea [(⟨-1, -1, 1⟩ : Vec3), ⟨-1, -1, -1⟩, ⟨1, -1, -1⟩, ⟨1, -1, 1⟩] = 4 := by
    apply polygonArea_of_shoelace _ ⟨0, -8, 0⟩ 4 (by norm_num)
    · norm_num [shoelace, rollDown, cross3, Vec3.add_def, Vec3.zero_def, Vec3.mk.injEq]
    · norm_num [dot3]
  have a5 : polygonArea [(⟨1, 1, -1⟩ : Vec3), ⟨1, -1, -1⟩, ⟨-1, -1, -1⟩, ⟨-1, 1, -1⟩] = 4 := by
    apply polygonArea_of_shoelace _ ⟨0, 0, -8⟩ 4 (by norm_num)
    · norm_num [shoelace, rollDown, cross3, Vec3.add_def, Vec3.zero_def, Vec3.mk.injEq]
    · norm_num [dot3]
  norm_num [facetAreas, cubeState, cubeFacets, cubeVertices, vget, a0, a1, a2, a3, a4, a5]

theorem cube_volume : volume cubeState = 8 := by
  rw [volume, cube_areas_eval]
  norm_num [cubeState, cubeEquations]

theorem cube_canonical : Canonical cubeState :=
  ⟨cube_neighbors_eval.symm, cube_equations_eval.symm, by rw [cube_volume]; norm_num⟩

end Coxeter

namespace Coxeter

/-- The mean-curvature formula exactly as the specification words it
(§4.4): "sum over each undirected neighbor edge of
`0.5 * edge_length * (π - dihedral_angle)`, normalized by `8π`".  Stated
for comparison with the source's `meanCurvature`. -/
noncomputable def specMeanCurvature (p : Polyhedron) : ℝ :=
  (((List.range p.facets.length).map (fun i =>
    (((p.neighbors.getD i []).filter (fun j => i ≤ j)).map (fun j =>
      let e := sharedEdge (p.facets.getD i []) (p.facets.getD j [])
      1 / 2 * norm3 (vget p.vertices e.1 - vget p.vertices e.2) *
        (Real.pi - dihedralVal p i j))).sum)).sum) / (8 * Real.pi)

theorem norm3_two_x : norm3 ⟨2, 0, 0⟩ = 2 := norm3_eq _ _ (by norm_num) (by norm_num [dot3])

theorem norm3_mtwo_x : norm3 ⟨-2, 0, 0⟩ = 2 := norm3_eq _ _ (by norm_num) (by norm_num [dot3])

theorem norm3_two_y : norm3 ⟨0, 2, 0⟩ = 2 := norm3_eq _ _ (by norm_num) (by norm_num [dot3])

theorem norm3_mtwo_y : norm3 ⟨0, -2, 0⟩ = 2 := norm3_eq _ _ (by norm_num) (by norm_num [dot3])

theorem norm3_two_z : norm3 ⟨0, 0, 2⟩ = 2 := norm3_eq _ _ (by norm_num) (by norm_num [dot3])

theorem norm3_mtwo_z : norm3 ⟨0, 0, -2⟩ = 2 := norm3_eq _ _ (by norm_num) (by norm_num [dot3])

theorem cube_meanCurvature : meanCurvature cubeState = 3 / 2 := by
  have hr : List.range 6 = [0, 1, 2, 3, 4, 5] := rfl
  have hpi : Real.pi ≠ 0 := Real.pi_ne_zero
  rw [meanCurvature]
  norm_num [cubeState, cubeFacets, cubeNeighbors, cubeEquations, cubeVertices, hr,
    sharedEdge, facetToEdges, rollDown, rollUp, edgesBoth, dihedralVal, vget,
    Vec3.sub_def, Vec3.neg_def, dot3, Real.arccos_zero, norm3_two_x, norm3_mtwo_x,
    norm3_two_y, norm3_mtwo_y, norm3_two_z, norm3_mtwo_z]
  field_simp
  ring

theorem cube_specMeanCurvature : specMeanCurvature cubeState = 3 / 4 := by
  have hr : List.range 6 = [0, 1, 2, 3, 4, 5] := rfl
  have hpi : Real.pi ≠ 0 := Real.pi_ne_zero
  rw [specMeanCurvature]
  norm_num [cubeState, cubeFacets, cubeNeighbors, cubeEquations, cubeVertices, hr,
    sharedEdge, facetToEdges, rollDown, rollUp, edgesBoth, dihedralVal, vget,
    Vec3.sub_def, Vec3.neg_def, dot3, Real.arccos_zero, norm3_two_x, norm3_mtwo_x,
    norm3_two_y, norm3_mtwo_y, norm3_two_z, norm3_mtwo_z]
  field_simp
  ring

end Coxeter

namespace Coxeter

/-- Two disjoint triangles in the plane `z = 0`: a valid constructor input
whose facet neighbor graph is disconnected (the two facets share no
edge). -/
noncomputable def p2verts : List Vec3 :=
  [⟨0, 0, 0⟩, ⟨1, 0, 0⟩, ⟨0, 1, 0⟩, ⟨5, 0, 0⟩, ⟨6, 0, 0⟩, ⟨5, 1, 0⟩]

/-- The raw two-triangle polyhedron state handed to `sort_facets`. -/
noncomputable def p2tri : Polyhedron := ⟨p2verts, [[0, 1, 2], [3, 4, 5]], [], []⟩

/-- The state `sort_facets` produces for `p2tri`. -/
noncomputable def q2tri : Polyhedron :=
  ⟨p2verts, [[0, 1, 2], [3, 4, 5]], [(⟨0, 0, 1⟩, 0), (⟨0, 0, 1⟩, 0)], [[], []]⟩

theorem p2_reorder0 : reorderFacet p2verts [0, 1, 2] = [0, 1, 2] := by
  have hm : [0, 1, 2].map (vget p2verts) = [⟨0, 0, 0⟩, ⟨1, 0, 0⟩, ⟨0, 1, 0⟩] := by
    norm_num [p2verts, vget]
  have hc : centroid [(⟨0, 0, 0⟩ : Vec3), ⟨1, 0, 0⟩, ⟨0, 1, 0⟩] = ⟨1/3, 1/3, 0⟩ := by
    norm_num [centroid, Vec3.smul_def, Vec3.add_def, Vec3.zero_def, Vec3.mk.injEq]
  rw [reorderFacet, hm, polygonVertices, hc]
  norm_num [List.insertionSort, List.orderedInsert, angLess, inUpperHalf, dot3, cross3,
    Vec3.sub_def, Vec3.mk.injEq, vertexIndex, p2verts]

theorem p2_reorder1 : reorderFacet p2verts [3, 4, 5] = [3, 4, 5] := by
  have hm : [3, 4, 5].map (vget p2verts) = [⟨5, 0, 0⟩, ⟨6, 0, 0⟩, ⟨5, 1, 0⟩] := by
    norm_num [p2verts, vget]
  have hc : centroid [(⟨5, 0, 0⟩ : Vec3), ⟨6, 0, 0⟩, ⟨5, 1, 0⟩] = ⟨16/3, 1/3, 0⟩ := by
    norm_num [centroid, Vec3.smul_def, Vec3.add_def, Vec3.zero_def, Vec3.mk.injEq]
  rw [reorderFacet, hm, polygonVertices, hc]
  norm_num [List.insertionSort, List.orderedInsert, angLess, inUpperHalf, dot3, cross3,
    Vec3.sub_def, Vec3.mk.injEq, vertexIndex, p2verts]

theorem p2_reorderAll : reorderAll p2tri = ⟨p2verts, [[0, 1, 2], [3, 4, 5]], [], []⟩ := by
  rw [reorderAll]
  simp only [p2tri, List.map_cons, List.map_nil, p2_reorder0, p2_reorder1]

theorem p2_equations :
    findEquations p2verts [[0, 1, 2], [3, 4, 5]] = [(⟨0, 0, 1⟩, 0), (⟨0, 0, 1⟩, 0)] := by
  have u : unitVec ⟨0, 0, 1⟩ = ⟨0, 0, 1⟩ := by
    rw [unitVec_eval ⟨0, 0, 1⟩ 1 (by norm_num) (by norm_num [dot3])]
    norm_num [Vec3.smul_def, Vec3.mk.injEq]
  norm_num [findEquations, p2verts, vget, cross3, Vec3.sub_def, Vec3.mk.injEq, u, dot3]

theorem sortFacets_p2tri : sortFacets p2tri = q2tri := by
  rw [sortFacets, p2_reorderAll]
  have hw : withNeighbors (⟨p2verts, [[0, 1, 2], [3, 4, 5]], [], []⟩ : Polyhedron) =
      ⟨p2verts, [[0, 1, 2], [3, 4, 5]], [], [[], []]⟩ := by
    rw [withNeighbors]
    rfl
  rw [hw]
  have ho : orientPhase (⟨p2verts, [[0, 1, 2], [3, 4, 5]], [], [[], []]⟩ : Polyhedron) =
      ⟨p2verts, [[0, 1, 2], [3, 4, 5]], [], [[], []]⟩ := by
    rw [orientPhase]
    rfl
  rw [ho, signFix]
  simp only [p2_equations]
  rw [if_neg]
  · rfl
  · rw [volume]
    norm_num [facetAreas]

end Coxeter

namespace Coxeter

/-- Three vertices of a triangle in the plane `z = 1`. -/
noncomputable def pNegVerts : List Vec3 := [⟨0, 0, 1⟩, ⟨1, 0, 1⟩, ⟨0, 1, 1⟩]

/-- A single-facet polyhedron whose facet is wound so that the computed
plane equation points inward: the signed volume after the orientation pass
is negative, forcing the global sign fix. -/
noncomputable def pNeg : Polyhedron := ⟨pNegVerts, [[2, 1, 0]], [], []⟩

theorem pNeg_reorder : reorderFacet pNegVerts [2, 1, 0] = [2, 1, 0] := by
  have hm : [2, 1, 0].map (vget pNegVerts) = [⟨0, 1, 1⟩, ⟨1, 0, 1⟩, ⟨0, 0, 1⟩] := by
    norm_num [pNegVerts, vget]
  have hc : centroid [(⟨0, 1, 1⟩ : Vec3), ⟨1, 0, 1⟩, ⟨0, 0, 1⟩] = ⟨1/3, 1/3, 1⟩ := by
    norm_num [centroid, Vec3.smul_def, Vec3.add_def, Vec3.zero_def, Vec3.mk.injEq]
  rw [reorderFacet, hm, polygonVertices, hc]
  norm_num [List.insertionSort, List.orderedInsert, angLess, inUpperHalf, dot3, cross3,
    Vec3.sub_def, Vec3.mk.injEq, vertexIndex, pNegVerts]

theorem pNeg_orient :
    orientPhase (withNeighbors (reorderAll pNeg)) = ⟨pNegVerts, [[2, 1, 0]], [], [[]]⟩ := by
  have hra : reorderAll pNeg = ⟨pNegVerts, [[2, 1, 0]], [], []⟩ := by
    rw [reorderAll]
    simp only [pNeg, List.map_cons, List.map_nil, pNeg_reorder]
  rw [hra, withNeighbors]
  rw [orientPhase]
  rfl

theorem pNeg_equations :
    findEquations pNegVerts [[2, 1, 0]] = [(⟨0, 0, -1⟩, -1)] := by
  have u : unitVec ⟨0, 0, -1⟩ = ⟨0, 0, -1⟩ := by
    rw [unitVec_eval ⟨0, 0, -1⟩ 1 (by norm_num) (by norm_num [dot3])]
    norm_num [Vec3.smul_def, Vec3.mk.injEq]
  norm_num [findEquations, pNegVerts, vget, cross3, Vec3.sub_def, Vec3.mk.injEq, u, dot3]

theorem pNeg_area : polygonArea [(⟨0, 1, 1⟩ : Vec3), ⟨1, 0, 1⟩, ⟨0, 0, 1⟩] = 1 / 2 := by
  apply polygonArea_of_shoelace _ ⟨0, 0, -1⟩ (1 / 2) (by norm_num)
  · norm_num [shoelace, rollDown, cross3, Vec3.add_def, Vec3.zero_def, Vec3.mk.injEq]
  · norm_num [dot3]

theorem pNeg_volume :
    volume (⟨pNegVerts, [[2, 1, 0]], [(⟨0, 0, -1⟩, -1)], [[]]⟩ : Polyhedron) = -(1 / 6) := by
  rw [volume]
  have hareas : facetAreas (⟨pNegVerts, [[2, 1, 0]], [(⟨0, 0, -1⟩, -1)], [[]]⟩ : Polyhedron) =
      [1 / 2] := by
    simp only [facetAreas, List.map_cons, List.map_nil]
    norm_num [pNegVerts, vget, pNeg_area]
  rw [hareas]
  norm_num

end Coxeter

namespace Coxeter

end Coxeter

namespace Coxeter

end Coxeter

namespace Coxeter

end Coxeter

namespace Coxeter

theorem foldl_preserve {α σ γ : Type} (P : σ → γ) (step : σ → α → σ) (l : List α)
    (init : σ) (h : ∀ s a, P (step s a) = P s) : P (l.foldl step init) = P init := by
  induction l generalizing init with
  | nil => rfl
  | cons a t ih => rw [List.foldl_cons, ih, h]

end Coxeter

namespace Coxeter

section

open Classical

end

end Coxeter

namespace Coxeter

/-- The state reached inside `sort_facets` after the per-facet reorder,
the neighbor search and the orientation traversal, just before the global
sign fix. -/
noncomputable def orientedState (p : Polyhedron) : Polyhedron :=
  orientPhase (withNeighbors (reorderAll p))

theorem sortFacets_eq_signFix (p : Polyhedron) : sortFacets p = signFix (orientedState p) := rfl


theorem visitNeighbors_length (curEdges : List (ℕ × ℕ)) (nbrs : List ℕ)
    (facets : List (List ℕ)) (visited stack : List ℕ) :
    (visitNeighbors curEdges nbrs facets visited stack).1.length = facets.length := by
  rw [visitNeighbors]
  apply foldl_preserve (fun st : List (List ℕ) × List ℕ × List ℕ => st.1.length)
  intro s a
  dsimp only
  split
  · rfl
  · split
    · exact List.length_set _ _ _
    · rfl

theorem orientLoop_length (neighbors : List (List ℕ)) (fuel : ℕ)
    (facets : List (List ℕ)) (visited stack : List ℕ) :
    (orientLoop neighbors fuel facets visited stack).length = facets.length := by
  induction fuel generalizing facets visited stack with
  | zero => rfl
  | succ fuel ih =>
    cases stack with
    | nil => rfl
    | cons current stk => rw [orientLoop, ih, visitNeighbors_length]

theorem signFix_facets_length (p : Polyhedron) :
    (signFix p).facets.length = p.facets.length := by
  simp only [signFix]
  split
  · exact List.length_map _ _
  · rfl

theorem sortFacets_facets_length (p : Polyhedron) :
    (sortFacets p).facets.length = (reorderAll p).facets.length := by
  rw [sortFacets, signFix_facets_length]
  exact orientLoop_length _ _ _ _ _

/-- Two facets of a polyhedron are adjacent when they are distinct and
share an edge. -/
def adjacentFacets (p : Polyhedron) (a b : ℕ) : Prop :=
  a ≠ b ∧ sharesEdge (p.facets.getD a []) (p.facets.getD b []) = true

theorem mem_neighbors_canonical (p : Polyhedron) (hc : Canonical p) (a b : ℕ)
    (ha : a < p.facets.length) (hb : b < p.facets.length) :
    (p.neighbors.getD a []).contains b = true ↔ adjacentFacets p a b := by
  rw [List.elem_iff, hc.1, mem_findNeighbors p.facets a b ha, adjacentFacets]
  constructor
  · rintro ⟨_, hne, hs⟩
    exact ⟨hne.symm, hs⟩
  · rintro ⟨hne, hs⟩
    exact ⟨hb, hne.symm, hs⟩

end Coxeter

namespace Coxeter

theorem sum_map_mul_const {α : Type} (c : ℝ) (l : List α) (f : α → ℝ) :
    (l.map (fun a => c * f a)).sum = c * (l.map f).sum := by
  induction l with
  | nil => simp
  | cons a t ih =>
    simp only [List.map_cons, List.sum_cons, ih]
    ring

/-- C2: after the orientation pass of `sort_facets`, if the signed volume
computed from the freshly found plane equations is negative then every
facet's vertex order is reversed and every plane equation is negated, and
on return from `sort_facets` the signed volume is non-negative. -/
theorem C2_theorem (p : Polyhedron) :
    (volume { orientedState p with
        equations := findEquations (orientedState p).vertices (orientedState p).facets } < 0 →
      (sortFacets p).facets = (orientedState p).facets.map List.reverse ∧
        (sortFacets p).equations =
          (findEquations (orientedState p).vertices (orientedState p).facets).map negEq) ∧
      0 ≤ volume (sortFacets p) := by
  have h := signFix_cases (orientedState p)
  constructor
  · intro hneg
    have h2 := h.1 hneg
    rw [sortFacets_eq_signFix, h2]
    exact ⟨rfl, rfl⟩
  · rw [sortFacets_eq_signFix]
    exact h.2

/-- Witness for C2 at the inward-wound triangle `pNeg`: its
post-orientation volume is `-1/6 < 0`, and the theorem yields the facet
reversal, the equation negation, and the non-negative final volume. -/
theorem C2_witness :
    volume { orientedState pNeg with
        equations := findEquations (orientedState pNeg).vertices (orientedState pNeg).facets } < 0 ∧
      (sortFacets pNeg).facets = (orientedState pNeg).facets.map List.reverse ∧
      (sortFacets pNeg).equations =
        (findEquations (orientedState pNeg).vertices (orientedState pNeg).facets).map negEq ∧
      0 ≤ volume (sortFacets pNeg) := by
  have horient : orientedState pNeg = ⟨pNegVerts, [[2, 1, 0]], [], [[]]⟩ := pNeg_orient
  have hneg : volume { orientedState pNeg with
      equations := findEquations (orientedState pNeg).vertices (orientedState pNeg).facets } < 0 := by
    rw [horient]
    have hv : volume { (⟨pNegVerts, [[2, 1, 0]], [], [[]]⟩ : Polyhedron) with
        equations := findEquations pNegVerts [[2, 1, 0]] } = -(1 / 6) := by
      rw [pNeg_equations]
      exact pNeg_volume
    rw [hv]
    norm_num
  have h := C2_theorem pNeg
  exact ⟨hneg, (h.1 hneg).1, (h.1 hneg).2, h.2⟩

/-- C3: for every canonicalized polyhedron, the `volume` property equals
the sum over all facets of the facet's plane offset times the facet's
area, divided by 3. -/
theorem C3_theorem (p : Polyhedron) (hc : Canonical p) :
    volume p = (∑ i ∈ Finset.range p.facets.length,
      (p.equations.getD i (0, 0)).2 *
        polygonArea ((p.facets.getD i []).map (vget p.vertices))) / 3 := by
  have hleneq : p.equations.length = p.facets.length := by
    rw [hc.2.1]
    exact findEquations_length _ _
  have hlen : (p.equations.map Prod.snd).length = (facetAreas p).length := by
    simp [facetAreas, hleneq]
  rw [volume, zipWith_mul_sum_eq _ _ hlen]
  have hlen2 : (p.equations.map Prod.snd).length = p.facets.length := by
    simp [hleneq]
  rw [hlen2]
  congr 1
  apply Finset.sum_congr rfl
  intro i hi
  have hi' : i < p.facets.length := Finset.mem_range.mp hi
  rw [getD_map_of_lt Prod.snd p.equations i (by omega) 0 (0, 0)]
  rw [show facetAreas p = p.facets.map (fun f => polygonArea (f.map (vget p.vertices))) from rfl]
  rw [getD_map_of_lt _ p.facets i hi' 0 []]

/-- Witness for C3 at the canonicalized cube. -/
theorem C3_witness :
    Canonical cubeState ∧
      volume cubeState = (∑ i ∈ Finset.range cubeState.facets.length,
        (cubeState.equations.getD i (0, 0)).2 *
          polygonArea ((cubeState.facets.getD i []).map (vget cubeState.vertices))) / 3 :=
  ⟨cube_canonical, C3_theorem cubeState cube_canonical⟩

end Coxeter

namespace Coxeter

/-- C5: the specification claims `mean_curvature` equals the sum over
each undirected neighbor edge of `0.5 * edge_length * (π - dihedral)`,
normalized by `8π`.  On the canonicalized cube the source computes `3/2`
(matching its own doctest) while the spec's formula gives `3/4`: the spec
double-counts the factor `1/2`. -/
theorem C5_counterexample :
    Canonical cubeState ∧ meanCurvature cubeState ≠ specMeanCurvature cubeState := by
  refine ⟨cube_canonical, ?_⟩
  rw [cube_meanCurvature, cube_specMeanCurvature]
  norm_num

/-- C5 (amended): for every canonicalized convex polyhedron,
`mean_curvature` equals the sum over each undirected neighbor edge of
`0.5 * edge_length * (π - dihedral_angle)`, normalized by `4π` (not
`8π`). -/
theorem C5_theorem (p : Polyhedron) (hc : Canonical p) :
    meanCurvature p =
      (((List.range p.facets.length).map (fun i =>
        (((p.neighbors.getD i []).filter (fun j => i ≤ j)).map (fun j =>
          1 / 2 * norm3 (vget p.vertices
              (sharedEdge (p.facets.getD i []) (p.facets.getD j [])).1 -
            vget p.vertices (sharedEdge (p.facets.getD i []) (p.facets.getD j [])).2) *
            (Real.pi - dihedralVal p i j))).sum)).sum) / (4 * Real.pi) := by
  rw [meanCurvature]
  have hinner : ∀ i : ℕ,
      (((p.neighbors.getD i []).filter (fun j => i ≤ j)).map (fun j =>
        1 / 2 * norm3 (vget p.vertices
            (sharedEdge (p.facets.getD i []) (p.facets.getD j [])).1 -
          vget p.vertices (sharedEdge (p.facets.getD i []) (p.facets.getD j [])).2) *
          (Real.pi - dihedralVal p i j))).sum =
      1 / 2 * (((p.neighbors.getD i []).filter (fun j => i ≤ j)).map (fun j =>
        norm3 (vget p.vertices
            (sharedEdge (p.facets.getD i []) (p.facets.getD j [])).1 -
          vget p.vertices (sharedEdge (p.facets.getD i []) (p.facets.getD j [])).2) *
          (Real.pi - dihedralVal p i j))).sum := by
    intro i
    rw [← sum_map_mul_const]
    apply congrArg List.sum
    apply List.map_congr_left
    intro j _
    ring
  have houter :
      ((List.range p.facets.length).map (fun i =>
        (((p.neighbors.getD i []).filter (fun j => i ≤ j)).map (fun j =>
          1 / 2 * norm3 (vget p.vertices
              (sharedEdge (p.facets.getD i []) (p.facets.getD j [])).1 -
            vget p.vertices (sharedEdge (p.facets.getD i []) (p.facets.getD j [])).2) *
            (Real.pi - dihedralVal p i j))).sum)).sum =
      1 / 2 * ((List.range p.facets.length).map (fun i =>
        (((p.neighbors.getD i []).filter (fun j => i ≤ j)).map (fun j =>
          norm3 (vget p.vertices
              (sharedEdge (p.facets.getD i []) (p.facets.getD j [])).1 -
            vget p.vertices (sharedEdge (p.facets.getD i []) (p.facets.getD j [])).2) *
            (Real.pi - dihedralVal p i j))).sum)).sum := by
    rw [← sum_map_mul_const]
    apply congrArg List.sum
    apply List.map_congr_left
    intro i _
    exact hinner i
  rw [houter]
  ring

/-- Witness for C5 (amended) at the canonicalized cube. -/
theorem C5_witness :
    Canonical cubeState ∧
      meanCurvature cubeState =
        (((List.range cubeState.facets.length).map (fun i =>
          (((cubeState.neighbors.getD i []).filter (fun j => i ≤ j)).map (fun j =>
            1 / 2 * norm3 (vget cubeState.vertices
                (sharedEdge (cubeState.facets.getD i []) (cubeState.facets.getD j [])).1 -
              vget cubeState.vertices
                (sharedEdge (cubeState.facets.getD i []) (cubeState.facets.getD j [])).2) *
              (Real.pi - dihedralVal cubeState i j))).sum)).sum) / (4 * Real.pi) :=
  ⟨cube_canonical, C5_theorem cubeState cube_canonical⟩

/-- C6: for a canonicalized polyhedron and valid facet indices,
`get_dihedral(a, b)` fails exactly when the two facets are not adjacent
(do not share an edge), and otherwise returns
`arccos(dot(-normal_a, normal_b))`. -/
theorem C6_theorem (p : Polyhedron) (hc : Canonical p) (a b : ℕ)
    (ha : a < p.facets.length) (hb : b < p.facets.length) :
    (getDihedral p a b = none ↔ ¬adjacentFacets p a b) ∧
      (adjacentFacets p a b → getDihedral p a b = some (dihedralVal p a b)) := by
  have hmem := mem_neighbors_canonical p hc a b ha hb
  constructor
  · constructor
    · intro hnone hadj
      rw [getDihedral, if_pos (hmem.mpr hadj)] at hnone
      exact Option.noConfusion hnone
    · intro hnadj
      rw [getDihedral, if_neg]
      intro hcont
      exact hnadj (hmem.mp hcont)
  · intro hadj
    rw [getDihedral, if_pos (hmem.mpr hadj)]
    rfl

/-- Witness for C6 at the cube, facets 0 and 1. -/
theorem C6_witness :
    (getDihedral cubeState 0 1 = none ↔ ¬adjacentFacets cubeState 0 1) ∧
      (adjacentFacets cubeState 0 1 →
        getDihedral cubeState 0 1 = some (dihedralVal cubeState 0 1)) :=
  C6_theorem cubeState cube_canonical 0 1 (by decide) (by decide)

/-- C7: the specification claims the volume setter raises
`InvalidParameterError` when the current volume is non-positive or the
requested volume is `≤ 0`, performing no rescaling.  No such check exists
in the source: on the cube with requested volume `-1` the setter
completes normally. -/
theorem C7_counterexample :
    (volume cubeState ≤ 0 ∨ (-1 : ℝ) ≤ 0) ∧
      (setVolume cubeState (-1)).isOk = true :=
  ⟨Or.inr (by norm_num), rfl⟩

/-- C7 (amended): the volume setter performs no validation and never
fails: for every polyhedron and every requested volume (positive or not)
it returns normally after scaling the vertices and the plane-equation
offsets by `(new_volume / volume) ** (1/3)`. -/
theorem C7_theorem :
    ∀ (p : Polyhedron) (V : ℝ),
      setVolume p V = Except.ok
        { p with
          vertices := p.vertices.map (fun v => ((V / volume p) ^ ((1 : ℝ) / 3)) • v),
          equations :=
            p.equations.map (fun e => (e.1, e.2 * (V / volume p) ^ ((1 : ℝ) / 3))) } :=
  fun _ _ => rfl

/-- C8: for a canonicalized polyhedron with positive volume and a
positive target `V`, setting the volume to `V` and reading it back
returns exactly `V`. -/
theorem C8_theorem (p : Polyhedron) (hc : Canonical p) (V : ℝ) (hp : 0 < volume p)
    (hV : 0 < V) : Except.map volume (setVolume p V) = Except.ok V := by
  rw [setVolume]
  show Except.ok (volume _) = Except.ok V
  congr 1
  rw [volume_scale]
  have hx : (0 : ℝ) < V / volume p := div_pos hV hp
  have h3 : (V / volume p) ^ ((1 : ℝ) / 3) * ((V / volume p) ^ ((1 : ℝ) / 3) *
      (V / volume p) ^ ((1 : ℝ) / 3)) = V / volume p := by
    have h1 : (V / volume p) ^ ((1 : ℝ) / 3) * ((V / volume p) ^ ((1 : ℝ) / 3) *
        (V / volume p) ^ ((1 : ℝ) / 3)) = ((V / volume p) ^ ((1 : ℝ) / 3)) ^ (3 : ℕ) := by
      ring
    rw [h1, ← Real.rpow_natCast ((V / volume p) ^ ((1 : ℝ) / 3)) 3,
      ← Real.rpow_mul hx.le]
    norm_num
  rw [h3, div_mul_cancel₀ V (ne_of_gt hp)]

/-- Witness for C8 at the cube with target volume 27. -/
theorem C8_witness :
    Canonical cubeState ∧ 0 < volume cubeState ∧ (0 : ℝ) < 27 ∧
      Except.map volume (setVolume cubeState 27) = Except.ok 27 := by
  have hp : 0 < volume cubeState := by
    rw [cube_volume]
    norm_num
  exact ⟨cube_canonical, hp, by norm_num,
    C8_theorem cubeState cube_canonical 27 hp (by norm_num)⟩

/-- C9: assigning a new center translates every vertex by the same delta
(new value minus old centroid), leaves the facet lists and the neighbor
graph unchanged, and recomputes the plane equations so that each facet's
unit normal is unchanged and only the signed offsets shift (by the dot
product of the normal with the delta). -/
theorem C9_theorem (p : Polyhedron) (hc : Canonical p)
    (hwf : ∀ f ∈ p.facets, 3 ≤ f.length ∧ ∀ k ∈ f, k < p.vertices.length) (c : Vec3) :
    (setCenter p c).vertices = p.vertices.map (fun v => v + (c - center p)) ∧
      (setCenter p c).facets = p.facets ∧
      (setCenter p c).neighbors = p.neighbors ∧
      ∀ i < p.facets.length,
        ((setCenter p c).equations.getD i (0, 0)).1 = (p.equations.getD i (0, 0)).1 ∧
          ((setCenter p c).equations.getD i (0, 0)).2 =
            (p.equations.getD i (0, 0)).2 +
              dot3 (p.equations.getD i (0, 0)).1 (c - center p) := by
  refine ⟨rfl, rfl, rfl, ?_⟩
  intro i hi
  have h := findEquations_translate p.vertices (c - center p) p.facets hwf i hi
  have heq : (setCenter p c).equations =
      findEquations (p.vertices.map (fun v => v + (c - center p))) p.facets := rfl
  rw [heq, hc.2.1]
  exact h

/-- Witness for C9 at the cube, moving the center to `(1, 2, 3)`. -/
theorem C9_witness :
    (setCenter cubeState ⟨1, 2, 3⟩).vertices =
        cubeState.vertices.map (fun v => v + (⟨1, 2, 3⟩ - center cubeState)) ∧
      (setCenter cubeState ⟨1, 2, 3⟩).facets = cubeState.facets ∧
      (setCenter cubeState ⟨1, 2, 3⟩).neighbors = cubeState.neighbors ∧
      ∀ i < cubeState.facets.length,
        ((setCenter cubeState ⟨1, 2, 3⟩).equations.getD i (0, 0)).1 =
            (cubeState.equations.getD i (0, 0)).1 ∧
          ((setCenter cubeState ⟨1, 2, 3⟩).equations.getD i (0, 0)).2 =
            (cubeState.equations.getD i (0, 0)).2 +
              dot3 (cubeState.equations.getD i (0, 0)).1 (⟨1, 2, 3⟩ - center cubeState) :=
  C9_theorem cubeState cube_canonical (by decide) ⟨1, 2, 3⟩

/-- C10: after every run of `sort_facets` (hence after construction and
after every `merge_facets`, both of which end with `sort_facets`), the
stored neighbor relation is symmetric and irreflexive. -/
theorem C10_theorem (p : Polyhedron) (i j : ℕ)
    (hi : i < (sortFacets p).facets.length) (hj : j < (sortFacets p).facets.length) :
    (j ∈ (sortFacets p).neighbors.getD i [] ↔ i ∈ (sortFacets p).neighbors.getD j []) ∧
      i ∉ (sortFacets p).neighbors.getD i [] := by
  have hlen := sortFacets_facets_length p
  rw [sortFacets_neighbors]
  exact ⟨findNeighbors_symm _ i j (hlen ▸ hi) (hlen ▸ hj),
    findNeighbors_irrefl _ i (hlen ▸ hi)⟩

/-- Witness for C10 at the two-triangle shape. -/
theorem C10_witness :
    (1 ∈ (sortFacets p2tri).neighbors.getD 0 [] ↔
        0 ∈ (sortFacets p2tri).neighbors.getD 1 []) ∧
      0 ∉ (sortFacets p2tri).neighbors.getD 0 [] :=
  C10_theorem p2tri 0 1 (by rw [sortFacets_p2tri]; decide) (by rw [sortFacets_p2tri]; decide)

end Coxeter
